import Mathlib

/-!
Shallow embedding of `analyzer.py` (cli-wrapped): a shell-history analyzer.
Python `datetime` values are modelled as records of numeric fields compared
lexicographically; Python dicts (and `defaultdict`s) are modelled as
insertion-ordered association lists; Python sets as insertion-ordered lists
without duplicates; exceptions as `Except`.  The filesystem is modelled as a
partial map from paths to lists of lines, and the wall clock as an explicit
`now` parameter.  `os.path.expanduser` is modelled as the identity on the
`~`-prefixed path strings (only distinctness of the three paths matters).
-/

namespace CliWrapped

/-- Model of a Python `datetime.datetime` value: its numeric fields.
Python compares datetimes lexicographically by these fields. -/
structure DateTime where
  year : Nat
  month : Nat
  day : Nat
  hour : Nat
  minute : Nat
  second : Nat
  usec : Nat
deriving DecidableEq, Repr

/-- Lexicographic comparison key of a datetime, mirroring Python's
field-by-field datetime comparison. -/
def DateTime.key (t : DateTime) : List Nat :=
  [t.year, t.month, t.day, t.hour, t.minute, t.second, t.usec]

/-- `datetime.max` = 9999-12-31 23:59:59.999999. -/
def dtMax : DateTime := ⟨9999, 12, 31, 23, 59, 59, 999999⟩

/-- Gregorian leap-year test, as in Python's `datetime` module. -/
def isLeap (y : Nat) : Bool := y % 4 == 0 && (y % 100 != 0 || y % 400 == 0)

/-- Days in month `m` of year `y` (months are 1-based). -/
def daysInMonth (y m : Nat) : Nat :=
  if m = 2 then (if isLeap y then 29 else 28)
  else if m = 4 ∨ m = 6 ∨ m = 9 ∨ m = 11 then 30
  else 31

/-- Number of days in year `y` strictly before month `m`. -/
def daysBeforeMonth (y m : Nat) : Nat :=
  (List.range (m - 1)).foldl (fun a i => a + daysInMonth y (i + 1)) 0

/-- Number of days before January 1st of year `y` in the proleptic
Gregorian calendar (Python `datetime._days_before_year`). -/
def daysBeforeYear (y : Nat) : Nat :=
  (y - 1) * 365 + (y - 1) / 4 - (y - 1) / 100 + (y - 1) / 400

/-- Proleptic Gregorian ordinal of a date, as `datetime.toordinal()`:
0001-01-01 has ordinal 1. -/
def DateTime.toOrdinal (t : DateTime) : Nat :=
  daysBeforeYear t.year + daysBeforeMonth t.year t.month + t.day

/-- `datetime.weekday()`: Monday is 0, Sunday is 6. -/
def DateTime.weekday (t : DateTime) : Nat := (t.toOrdinal + 6) % 7

/-- `timestamp.timetuple().tm_yday`: 1-based day of the year. -/
def DateTime.tmYday (t : DateTime) : Nat :=
  daysBeforeMonth t.year t.month + t.day

/-- Scan months `m, m+1, ...` (with `fuel` remaining steps) for the month
containing 0-based day-of-year `n`; returns the 1-based month and day. -/
def monthScan (y : Nat) : Nat → Nat → Nat → Nat × Nat
  | 0, m, n => (m, n + 1)
  | fuel + 1, m, n =>
    if n < daysInMonth y m then (m, n + 1)
    else monthScan y fuel (m + 1) (n - daysInMonth y m)

/-- Inverse of `toOrdinal` (Python `datetime._ord2ymd`): date of a
proleptic Gregorian ordinal `n ≥ 1`, returned as (year, month, day). -/
def ordToDate (n : Nat) : Nat × Nat × Nat :=
  let n0 := n - 1
  let n400 := n0 / 146097
  let r1 := n0 % 146097
  let n100 := r1 / 36524
  let r2 := r1 % 36524
  let n4 := r2 / 1461
  let r3 := r2 % 1461
  let n1 := r3 / 365
  let r4 := r3 % 365
  let year := n400 * 400 + 1 + n100 * 100 + n4 * 4 + n1
  if n1 = 4 ∨ n100 = 4 then (year - 1, 12, 31)
  else
    let md := monthScan year 11 1 r4
    (year, md.1, md.2)

/-- Python exceptions that the analyzer can raise. -/
inductive PyErr where
  | fileNotFound (msg : String)
  | attributeError (attr : String)
  | valueError (msg : String)
  | overflowError
  | indexError (msg : String)
deriving DecidableEq, Repr

/-- `datetime.fromtimestamp` on an integer epoch, modelled in UTC (the
Python call uses the local time zone; the zone offset does not matter for
any property below).  Out-of-range epochs (outside years 1..9999) raise,
as in CPython. -/
def fromTimestamp (e : Int) : Except PyErr DateTime :=
  let days : Int := Int.fdiv e 86400
  let sod : Int := e - days * 86400
  let ordI : Int := 719163 + days
  if ordI < 1 then .error .overflowError
  else
    let ymd := ordToDate ordI.toNat
    if ymd.1 > 9999 then .error .overflowError
    else
      let s := sod.toNat
      .ok ⟨ymd.1, ymd.2.1, ymd.2.2, s / 3600, s % 3600 / 60, s % 60, 0⟩

/-! ### Python string helpers -/

/-- Python whitespace for `str.strip()` / `str.split()`. -/
def isPyWs (c : Char) : Bool :=
  c = ' ' || c = '\t' || c = '\n' || c = '\r' || c = '\x0b' || c = '\x0c'

/-- Python `str.strip()` (no argument): strip whitespace on both ends. -/
def pyStrip (s : String) : String :=
  (((s.toList.dropWhile isPyWs).reverse.dropWhile isPyWs).reverse).asString

/-- Helper for `pySplitWs`: split a character list on whitespace runs,
`cur` being the (possibly empty) token being accumulated. -/
def pySplitWsAux : List Char → List Char → List String
  | [], cur => if cur.isEmpty then [] else [cur.asString]
  | c :: rest, cur =>
    if isPyWs c then
      if cur.isEmpty then pySplitWsAux rest []
      else cur.asString :: pySplitWsAux rest []
    else pySplitWsAux rest (cur ++ [c])

/-- Python `str.split()` with no separator: split on runs of whitespace,
producing no empty tokens. -/
def pySplitWs (s : String) : List String := pySplitWsAux s.toList []

/-- Value of a list of decimal digit characters. -/
def digitsVal (cs : List Char) : Nat :=
  cs.foldl (fun a c => a * 10 + (c.toNat - 48)) 0

/-- No two consecutive underscores. -/
def noDoubleUnderscore : List Char → Bool
  | '_' :: '_' :: _ => false
  | _ :: rest => noDoubleUnderscore rest
  | [] => true

/-- Valid digit group for Python `int()`: nonempty digits with single
underscores strictly between digits. -/
def digitsOk (cs : List Char) : Bool :=
  !cs.isEmpty && cs.all (fun c => c.isDigit || c = '_')
    && cs.head? != some '_' && cs.getLast? != some '_'
    && noDoubleUnderscore cs

/-- Python `int(s)` on an ASCII string: strips whitespace, allows an
optional sign and underscores between digits; raises `ValueError`
otherwise. -/
def pyInt (s : String) : Except PyErr Int :=
  let cs := ((s.toList.dropWhile isPyWs).reverse.dropWhile isPyWs).reverse
  let signed : Bool × List Char :=
    match cs with
    | '-' :: rest => (true, rest)
    | '+' :: rest => (false, rest)
    | _ => (false, cs)
  if digitsOk signed.2 then
    let v : Int := Int.ofNat (digitsVal (signed.2.filter (fun c => c ≠ '_')))
    .ok (if signed.1 then -v else v)
  else
    .error (.valueError ("invalid literal for int() with base 10: '" ++ s ++ "'"))

/-! ### Tokenizer: `shlex.split` and the fallback (`_safe_split_command`) -/

/-- States of the `shlex` POSIX lexer: outside quotes, in single quotes,
in double quotes, after a backslash outside quotes, after a backslash
inside double quotes. -/
inductive ShState where
  | norm | sq | dq | esc | dqesc
deriving DecidableEq, Repr

/-- `shlex` whitespace (' ', tab, CR, LF). -/
def isShlexWs (c : Char) : Bool := c = ' ' || c = '\t' || c = '\r' || c = '\n'

/-- The `shlex.split` state machine (POSIX mode, whitespace_split, no
comments): `tok` is the token being accumulated, `q` records whether the
current token saw a quote (so `""` yields an empty token), `acc` the
tokens emitted so far.  Unterminated quotes and a trailing backslash
raise `ValueError`, as in CPython's `shlex`. -/
def shlexGo : List Char → ShState → List Char → Bool → List String →
    Except String (List String)
  | [], .norm, tok, q, acc =>
    .ok (if tok.isEmpty && !q then acc else acc ++ [tok.asString])
  | [], .sq, _, _, _ => .error "No closing quotation"
  | [], .dq, _, _, _ => .error "No closing quotation"
  | [], .esc, _, _, _ => .error "No escaped character"
  | [], .dqesc, _, _, _ => .error "No escaped character"
  | c :: rest, .norm, tok, q, acc =>
    if isShlexWs c then
      if tok.isEmpty && !q then shlexGo rest .norm [] false acc
      else shlexGo rest .norm [] false (acc ++ [tok.asString])
    else if c = '\'' then shlexGo rest .sq tok true acc
    else if c = '"' then shlexGo rest .dq tok true acc
    else if c = '\\' then shlexGo rest .esc tok q acc
    else shlexGo rest .norm (tok ++ [c]) q acc
  | c :: rest, .sq, tok, q, acc =>
    if c = '\'' then shlexGo rest .norm tok q acc
    else shlexGo rest .sq (tok ++ [c]) q acc
  | c :: rest, .dq, tok, q, acc =>
    if c = '"' then shlexGo rest .norm tok q acc
    else if c = '\\' then shlexGo rest .dqesc tok q acc
    else shlexGo rest .dq (tok ++ [c]) q acc
  | c :: rest, .esc, tok, q, acc => shlexGo rest .norm (tok ++ [c]) q acc
  | c :: rest, .dqesc, tok, q, acc =>
    if c = '"' || c = '\\' then shlexGo rest .dq (tok ++ [c]) q acc
    else shlexGo rest .dq (tok ++ ['\\', c]) q acc

/-- `shlex.split(command)`. -/
def shlexSplit (s : String) : Except String (List String) :=
  shlexGo s.toList .norm [] false []

/-- Model of `re.sub(r'(\x27[^\x27]*|"[^"]*)', '', command)`: each quote
character and the run of non-quote characters after it is removed; the
scan resumes at the character that ended the run. -/
def stripUnterminated : List Char → List Char
  | [] => []
  | c :: rest =>
    if c = '\'' then stripUnterminated (rest.dropWhile (fun d => d ≠ '\''))
    else if c = '"' then stripUnterminated (rest.dropWhile (fun d => d ≠ '"'))
    else c :: stripUnterminated rest
termination_by cs => cs.length
decreasing_by
  all_goals simp_wf
  · have h := (List.dropWhile_suffix (l := rest) (fun d => !decide (d = '\''))).length_le
    omega
  · have h := (List.dropWhile_suffix (l := rest) (fun d => !decide (d = '"'))).length_le
    omega

/-- The fallback branch of `_safe_split_command`: strip unterminated
quoted fragments, then `str.split()`. -/
def fallbackSplit (command : String) : List String :=
  pySplitWs (stripUnterminated command.toList).asString

/-- `HistoryAnalyzer._safe_split_command`: try `shlex.split`; on
`ValueError` fall back to `fallbackSplit`.  Total: never raises. -/
def safeSplit (command : String) : List String :=
  match shlexSplit command with
  | .ok ts => ts
  | .error _ => fallbackSplit command

/-! ### Aggregate state and `_process_command` -/

/-- Per-month entry of `commands_by_month`: a count and a per-command
tally (`defaultdict(lambda: {'count': 0, 'commands': defaultdict(int)})`). -/
structure MonthData where
  count : Nat
  commands : List (String × Nat)
deriving DecidableEq, Repr

/-- Python dict insert-or-update: if the key is present, update its value
in place (keeping its position); otherwise append `(k, f dflt)` at the
end, mirroring dict insertion order. -/
def dictUpdate {κ α : Type} [DecidableEq κ] (dflt : α) (f : α → α) :
    List (κ × α) → κ → List (κ × α)
  | [], k => [(k, f dflt)]
  | (k', v) :: rest, k =>
    if k' = k then (k', f v) :: rest else (k', v) :: dictUpdate dflt f rest k

/-- `defaultdict(int)` increment: `d[k] += 1`. -/
def dictIncr {κ : Type} [DecidableEq κ] (d : List (κ × Nat)) (k : κ) :
    List (κ × Nat) :=
  dictUpdate 0 (· + 1) d k

/-- Python `set.add`, modelled with insertion order made explicit. -/
def setAdd (s : List String) (x : String) : List String :=
  if x ∈ s then s else s ++ [x]

/-- The `command_data` dictionary of `HistoryAnalyzer`. -/
structure AggState where
  total_commands : Nat
  unique_commands : List String
  commands_by_month : List (Nat × MonthData)
  commands_by_weekday : List (Nat × Nat)
  commands_by_hour : List (Nat × Nat)
  commands_by_day : List (Nat × Nat)
  total_command_count : List (String × Nat)
  first_command : Option String
  first_command_time : DateTime
deriving DecidableEq, Repr

/-- The state built in `HistoryAnalyzer.__init__`. -/
def initState : AggState :=
  ⟨0, [], [], [], [], [], [], none, dtMax⟩

/-- `HistoryAnalyzer._process_command`.  Its `try`/`except` wrapper is
not visible here because every operation in the body is total (the
tokenizer catches its own `ValueError` internally), so the `except`
branch is unreachable for the modelled operations. -/
def processCommand (st : AggState) (command : String) (timestamp : DateTime) :
    AggState :=
  match safeSplit command with
  | [] => st
  | base :: _ =>
    let st1 := { st with
      total_commands := st.total_commands + 1
      unique_commands := setAdd st.unique_commands base
      total_command_count := dictIncr st.total_command_count base }
    let st2 :=
      if timestamp.key < st1.first_command_time.key then
        { st1 with first_command := some command, first_command_time := timestamp }
      else st1
    let st3 := { st2 with
      commands_by_month := dictUpdate ⟨0, []⟩
        (fun md => ⟨md.count + 1, dictIncr md.commands base⟩)
        st2.commands_by_month timestamp.month }
    { st3 with
      commands_by_weekday := dictIncr st3.commands_by_weekday timestamp.weekday
      commands_by_hour := dictIncr st3.commands_by_hour timestamp.hour
      commands_by_day := dictIncr st3.commands_by_day timestamp.tmYday }

/-- One iteration of the loop in `analyze_commands`: skip records whose
year differs from the target year. -/
def analyzeStep (year : Nat) (st : AggState) (r : String × DateTime) : AggState :=
  if r.2.year ≠ year then st else processCommand st r.1 r.2

/-- The record loop of `analyze_commands` over an already-parsed stream. -/
def analyzeAll (year : Nat) (st : AggState) (recs : List (String × DateTime)) :
    AggState :=
  recs.foldl (analyzeStep year) st

/-- Folding `_process_command` over a batch of records (no year filter). -/
def processAll (st : AggState) (recs : List (String × DateTime)) : AggState :=
  recs.foldl (fun s r => processCommand s r.1 r.2) st

/-! ### History parsers and `parse_shell_history` -/

/-- Python `s.split(sep)` for a one-character separator, on character
lists: always at least one (possibly empty) part. -/
def splitOnChar (sep : Char) : List Char → List (List Char)
  | [] => [[]]
  | c :: rest =>
    let r := splitOnChar sep rest
    if c = sep then [] :: r
    else
      match r with
      | [] => [[c]]
      | t :: ts => (c :: t) :: ts

/-- `line.split(';')`. -/
def pySplitSemi (s : String) : List String :=
  (splitOnChar ';' s.toList).map List.asString

/-- `line.startswith(':')`. -/
def startsWithColon (s : String) : Bool :=
  match s.toList with
  | c :: _ => c = ':'
  | [] => false

/-- `';'.join(parts)`. -/
def joinSemi : List String → String
  | [] => ""
  | [s] => s
  | s :: rest => s ++ ";" ++ joinSemi rest

/-- One iteration of the `_parse_zsh_history` loop on a line (without its
trailing newline): skip lines not starting with `:`, split on `;`, skip
when fewer than 3 parts, otherwise `int(parts[1])`,
`datetime.fromtimestamp`, and `';'.join(parts[2:]).strip()`. -/
def parseZshLine (line : String) : Except PyErr (Option (String × DateTime)) :=
  if startsWithColon line then
    let parts := pySplitSemi line
    if h : 3 ≤ parts.length then
      match pyInt (parts.get ⟨1, by omega⟩) with
      | .error e => .error e
      | .ok n =>
        match fromTimestamp n with
        | .error e => .error e
        | .ok ts => .ok (some (pyStrip (joinSemi (parts.drop 2)), ts))
    else .ok none
  else .ok none

/-- `_parse_zsh_history` over the file's lines; the first raising line
aborts (the generator's exception propagates to the consumer). -/
def parseZsh : List String → Except PyErr (List (String × DateTime))
  | [] => .ok []
  | l :: rest =>
    match parseZshLine l with
    | .error e => .error e
    | .ok none => parseZsh rest
    | .ok (some r) =>
      match parseZsh rest with
      | .error e => .error e
      | .ok rs => .ok (r :: rs)

/-- `_parse_bash_history`: each stripped non-blank line is a record
timestamped with the current wall clock (modelled as the fixed `now`). -/
def parseBash (now : DateTime) (lines : List String) : List (String × DateTime) :=
  (lines.map pyStrip).filterMap (fun l => if l = "" then none else some (l, now))

/-- `os.path.expanduser('~/.bash_history')`, modelled as the literal path. -/
def bashHistoryPath : String := "~/.bash_history"

/-- `os.path.expanduser('~/.zsh_history')`, modelled as the literal path. -/
def zshHistoryPath : String := "~/.zsh_history"

/-- `os.path.expanduser('~/.local/share/fish/fish_history')`. -/
def fishHistoryPath : String := "~/.local/share/fish/fish_history"

/-- The `history_files` dictionary: shell identifier to path. -/
def historyFiles (shell : String) : Option String :=
  if shell = "bash" then some bashHistoryPath
  else if shell = "zsh" then some zshHistoryPath
  else if shell = "fish" then some fishHistoryPath
  else none

/-- `HistoryAnalyzer.parse_shell_history`: resolve the path (raising
`FileNotFoundError` naming the shell when the shell is unknown or the
file is absent), then dispatch through
`getattr(self, f'_parse_{shell}_history')` — which raises
`AttributeError` for `fish`, since no `_parse_fish_history` exists.
The filesystem `fs` maps a path to its list of lines when the file
exists. -/
def parseShellHistory (fs : String → Option (List String)) (now : DateTime)
    (shell : String) : Except PyErr (List (String × DateTime)) :=
  match historyFiles shell with
  | none => .error (.fileNotFound ("History file not found for " ++ shell))
  | some path =>
    match fs path with
    | none => .error (.fileNotFound ("History file not found for " ++ shell))
    | some lines =>
      if shell = "bash" then .ok (parseBash now lines)
      else if shell = "zsh" then parseZsh lines
      else .error (.attributeError ("_parse_" ++ shell ++ "_history"))

/-! ### Report generation -/

/-- Stable insertion (descending by `key`): the new element goes before
the first element whose key is ≤ its own, so that among equal keys the
element processed earlier stays earlier — the order produced by Python's
stable `sorted(..., reverse=True)`. -/
def insDescBy {α : Type} (key : α → Nat) (x : α) : List α → List α
  | [] => [x]
  | y :: ys => if key y ≤ key x then x :: y :: ys else y :: insDescBy key x ys

/-- Python `sorted(l, key=key, reverse=True)` (stable descending sort). -/
def sortDescBy {α : Type} (key : α → Nat) : List α → List α
  | [] => []
  | x :: xs => insDescBy key x (sortDescBy key xs)

/-- Python `max(d.items(), key=lambda x: x[1])`: raises `ValueError` on
an empty sequence, otherwise keeps the first item whose value is not
exceeded by a later one (a later item replaces the best only when
strictly greater). -/
def pyMaxPairs (l : List (Nat × Nat)) : Except PyErr (Nat × Nat) :=
  match l with
  | [] => .error (.valueError "max() arg is an empty sequence")
  | x :: xs => .ok (xs.foldl (fun best y => if y.2 > best.2 then y else best) x)

/-- Python list indexing: raises `IndexError` out of range. -/
def listGet {α : Type} (l : List α) (i : Nat) : Except PyErr α :=
  match l.get? i with
  | some x => .ok x
  | none => .error (.indexError "list index out of range")

/-- The `month_names` list of `generate_report`. -/
def monthNames : List String :=
  ["January", "February", "March", "April", "May", "June",
   "July", "August", "September", "October", "November", "December"]

/-- The `weekdays` list of `generate_report`. -/
def weekdayNames : List String :=
  ["Monday", "Tuesday", "Wednesday", "Thursday", "Friday", "Saturday", "Sunday"]

/-- The data printed by `generate_report`, in print order. -/
structure Report where
  year : Nat
  totalCommands : Nat
  uniqueCommands : Nat
  topCommands : List (String × Nat)
  activeMonths : List (Nat × MonthData)
  activeMonthNames : List String
  topInMonths : List (String × List (String × Nat))
  mostActiveWeekday : Nat
  mostActiveWeekdayName : String
  mostActiveHour : Nat
deriving DecidableEq, Repr

/-- `HistoryAnalyzer.generate_report`, as the data it prints; failure
points appear in the order the Python statements execute them
(month-name indexing for the active months, then `max` over the weekday
bucket, the weekday-name indexing, and `max` over the hour bucket). -/
def generateReport (year : Nat) (st : AggState) : Except PyErr Report := do
  let top := (sortDescBy (fun p => p.2) st.total_command_count).take 10
  let months := (sortDescBy (fun p => p.2.count) st.commands_by_month).take 3
  let mnames ← months.mapM (fun p => listGet monthNames (p.1 - 1))
  let tim ← months.mapM (fun p => do
    let n ← listGet monthNames (p.1 - 1)
    pure (n, (sortDescBy (fun q => q.2) p.2.commands).take 3))
  let mw ← pyMaxPairs st.commands_by_weekday
  let wname ← listGet weekdayNames mw.1
  let mh ← pyMaxPairs st.commands_by_hour
  pure ⟨year, st.total_commands, st.unique_commands.length, top, months,
    mnames, tim, mw.1, wname, mh.1⟩

/-! ### `main` -/

/-- `self.year = year or datetime.now().year` in `__init__` (note that a
passed year of `0` is falsy in Python and also falls back to the current
year). -/
def resolveYear (argYear : Option Nat) (now : DateTime) : Nat :=
  match argYear with
  | none => now.year
  | some y => if y = 0 then now.year else y

/-- `main` after argument parsing: build the analyzer, run
`analyze_commands`, then `generate_report`.  `main` installs no handler,
so a raised `PyErr` (the `.error` case) terminates the process with a
non-zero exit status before any report output. -/
def mainRun (fs : String → Option (List String)) (now : DateTime)
    (argYear : Option Nat) (shell : String) : Except PyErr Report := do
  let y := resolveYear argYear now
  let recs ← parseShellHistory fs now shell
  let st := analyzeAll y initState recs
  generateReport y st

/-! ### Derived definitions used to state the properties -/

/-- Sum of the values of a string-keyed tally. -/
def sumVals (d : List (String × Nat)) : Nat := (d.map (fun p => p.2)).sum

/-- Keys of a string-keyed tally, in insertion order. -/
def keysOf (d : List (String × Nat)) : List String := d.map (fun p => p.1)

/-- The documented aggregate-state invariant: `total_commands` is the sum
of the values of `total_command_count`, and `unique_commands` is its key
set (here: even its exact insertion-ordered key list). -/
def Inv (st : AggState) : Prop :=
  st.total_commands = sumVals st.total_command_count ∧
  st.unique_commands = keysOf st.total_command_count

/-- Effect of one record on the `(first_command, first_command_time)`
pair of the state. -/
def fcStep (p : Option String × DateTime) (r : String × DateTime) :
    Option String × DateTime :=
  if safeSplit r.1 = [] then p
  else if r.2.key < p.2.key then (some r.1, r.2) else p

/-- `m` is the first maximum-value item of `items` (in iteration order,
which for the modelled dicts is insertion order): every item before it is
strictly smaller, every item after it no larger. -/
def FirstMax (items : List (Nat × Nat)) (m : Nat × Nat) : Prop :=
  ∃ l1 l2, items = l1 ++ m :: l2 ∧
    (∀ p ∈ l1, p.2 < m.2) ∧ (∀ p ∈ l2, p.2 ≤ m.2)

/-- Whether a zsh history line is processed without raising (it is either
skipped or yields a record); only the timestamp fields can make this
false — the command text is unconstrained. -/
def lineOkZsh (l : String) : Bool :=
  match parseZshLine l with
  | .ok _ => true
  | .error _ => false

/-- The zsh pipeline from file lines to final aggregate state: parse,
then run the aggregation loop (a raised parse error propagates). -/
def runZsh (y : Nat) (lines : List String) : Except PyErr AggState :=
  (parseZsh lines).map (analyzeAll y initState)

/-- The weekday index reported by a completed report, `none` if report
generation raised. -/
def reportedWeekday (e : Except PyErr Report) : Option Nat :=
  match e with
  | .ok r => some r.mostActiveWeekday
  | .error _ => none

/-- A batch of three admitted records in non-chronological stream order;
2023-01-15 08:00 is the earliest timestamp and belongs to `"a one"`. -/
def c6Batch : List (String × DateTime) :=
  [("b two", ⟨2023, 6, 20, 12, 0, 0, 0⟩),
   ("a one", ⟨2023, 1, 15, 8, 0, 0, 0⟩),
   ("c three", ⟨2023, 9, 1, 23, 30, 0, 0⟩)]

/-- Ten records giving weekday counts `{3: 5, 0: 5}` with weekday 3
(Thursday 2023-01-05) occurring first in the stream and weekday 0
(Monday 2023-01-02) second. -/
def c8Batch : List (String × DateTime) :=
  [("ls", ⟨2023, 1, 5, 10, 0, 0, 0⟩), ("ls", ⟨2023, 1, 5, 10, 1, 0, 0⟩),
   ("ls", ⟨2023, 1, 5, 10, 2, 0, 0⟩), ("ls", ⟨2023, 1, 5, 10, 3, 0, 0⟩),
   ("ls", ⟨2023, 1, 5, 10, 4, 0, 0⟩),
   ("cd", ⟨2023, 1, 2, 10, 0, 0, 0⟩), ("cd", ⟨2023, 1, 2, 10, 1, 0, 0⟩),
   ("cd", ⟨2023, 1, 2, 10, 2, 0, 0⟩), ("cd", ⟨2023, 1, 2, 10, 3, 0, 0⟩),
   ("cd", ⟨2023, 1, 2, 10, 4, 0, 0⟩)]

/-- The aggregate state after processing `c8Batch`. -/
def c8State : AggState := processAll initState c8Batch

/-- Whether an `Except` computation completed without raising. -/
def isOkB {α : Type} (e : Except PyErr α) : Bool :=
  match e with
  | .ok _ => true
  | .error _ => false

/-- The report produced for `c8State` (checked below against
`generateReport`). -/
def c8Rep : Report :=
  ⟨2023, 10, 2, [("ls", 5), ("cd", 5)],
   [(1, ⟨10, [("ls", 5), ("cd", 5)]⟩)], ["January"],
   [("January", [("ls", 5), ("cd", 5)])], 3, "Thursday", 10⟩

/-! ### Helper lemmas -/

/-- Unfolded record-level description of `_process_command`. -/
theorem processCommand_eq (st : AggState) (c : String) (t : DateTime) :
    processCommand st c t =
      match safeSplit c with
      | [] => st
      | base :: _ =>
        { total_commands := st.total_commands + 1
          unique_commands := setAdd st.unique_commands base
          commands_by_month := dictUpdate ⟨0, []⟩
            (fun md => ⟨md.count + 1, dictIncr md.commands base⟩)
            st.commands_by_month t.month
          commands_by_weekday := dictIncr st.commands_by_weekday t.weekday
          commands_by_hour := dictIncr st.commands_by_hour t.hour
          commands_by_day := dictIncr st.commands_by_day t.tmYday
          total_command_count := dictIncr st.total_command_count base
          first_command :=
            if t.key < st.first_command_time.key then some c else st.first_command
          first_command_time :=
            if t.key < st.first_command_time.key then t else st.first_command_time } := by
  cases h : safeSplit c with
  | nil => simp [processCommand, h]
  | cons base rest =>
    simp only [processCommand, h]
    split <;> rfl

theorem sumVals_cons (k : String) (v : Nat) (d : List (String × Nat)) :
    sumVals ((k, v) :: d) = v + sumVals d := by
  simp [sumVals]

theorem sumVals_dictIncr (d : List (String × Nat)) (k : String) :
    sumVals (dictIncr d k) = sumVals d + 1 := by
  induction d with
  | nil => simp [dictIncr, dictUpdate, sumVals]
  | cons p rest ih =>
    obtain ⟨k', v⟩ := p
    by_cases h : k' = k
    · simp [dictIncr, dictUpdate, h, sumVals_cons]
      omega
    · simp only [dictIncr, dictUpdate, if_neg h, sumVals_cons]
      simp only [dictIncr] at ih
      omega

theorem keysOf_dictIncr (d : List (String × Nat)) (k : String) :
    keysOf (dictIncr d k) = setAdd (keysOf d) k := by
  induction d with
  | nil => simp [dictIncr, dictUpdate, keysOf, setAdd]
  | cons p rest ih =>
    obtain ⟨k', v⟩ := p
    by_cases h : k' = k
    · subst h
      simp [dictIncr, dictUpdate, keysOf, setAdd]
    · have hne : k ≠ k' := fun hh => h hh.symm
      simp only [dictIncr, dictUpdate, if_neg h, keysOf, List.map_cons] at ih ⊢
      rw [ih]
      unfold setAdd
      by_cases hm : k ∈ List.map (fun p => p.1) rest <;>
        simp [hm, List.mem_cons, hne]

theorem inv_initState : Inv initState := ⟨rfl, rfl⟩

theorem inv_processCommand (st : AggState) (c : String) (t : DateTime)
    (h : Inv st) : Inv (processCommand st c t) := by
  rw [processCommand_eq]
  cases hs : safeSplit c with
  | nil => exact h
  | cons base rest =>
    obtain ⟨h1, h2⟩ := h
    exact ⟨by simp [sumVals_dictIncr, h1], by simp [keysOf_dictIncr, h2]⟩

theorem inv_analyzeStep (y : Nat) (st : AggState) (r : String × DateTime)
    (h : Inv st) : Inv (analyzeStep y st r) := by
  unfold analyzeStep
  split
  · exact h
  · exact inv_processCommand _ _ _ h

theorem inv_processAll (recs : List (String × DateTime)) :
    ∀ st : AggState, Inv st → Inv (processAll st recs) := by
  induction recs with
  | nil => exact fun st h => h
  | cons r rs ih =>
    intro st h
    exact ih _ (inv_processCommand st r.1 r.2 h)

theorem inv_analyzeAll (y : Nat) (recs : List (String × DateTime)) :
    ∀ st : AggState, Inv st → Inv (analyzeAll y st recs) := by
  induction recs with
  | nil => exact fun st h => h
  | cons r rs ih =>
    intro st h
    exact ih _ (inv_analyzeStep y st r h)

theorem shlexGo_ws (cs : List Char) (acc : List String)
    (h : ∀ ch ∈ cs, isShlexWs ch = true) :
    shlexGo cs .norm [] false acc = .ok acc := by
  induction cs with
  | nil => rfl
  | cons c rest ih =>
    have hc := h c (by simp)
    simp only [shlexGo, hc, if_pos, List.isEmpty_nil, Bool.not_false, Bool.and_self,
      if_true]
    exact ih (fun ch hm => h ch (by simp [hm]))

/-! ### Claims -/

/-- C1: the claim says the zsh parser turns `:1700000000:0;git status`
into one record (epoch 1700000000, command `git status`) and skips a
`:`-line only when splitting on `;` gives fewer than 2 parts.  The code
requires at least 3 `;`-separated parts (`len(parts) >= 3`) and reads
`parts[1]` — the text after the first `;` — as the epoch, so the
standard zsh extended-format line yields no record at all (and, as the
spec correctly states, a line with no leading `:` also yields none). -/
theorem C1_zsh_standard_line_yields_no_record :
    parseZsh [":1700000000:0;git status"] = .ok [] ∧
    parseZsh ["git status"] = .ok [] := ⟨rfl, rfl⟩

/-- C3: the claim says `generate_report` never raises, even on the
all-zero state.  In fact on the initial (no admitted records) state the
unguarded `max(self.command_data['commands_by_weekday'].items(), ...)`
raises `ValueError: max() arg is an empty sequence` for every target
year. -/
theorem C3_report_raises_on_no_data (y : Nat) :
    generateReport y initState =
      .error (.valueError "max() arg is an empty sequence") := rfl

/-- C4: after any sequence of records (equivalently, after each
individual record, since `_process_command` preserves the invariant and
the initial state satisfies it), `total_commands` equals the sum of the
values of `total_command_count` and `unique_commands` equals its key
list. -/
theorem C4_totals_and_keys_invariant :
    (∀ (st : AggState) (c : String) (t : DateTime),
      Inv st → Inv (processCommand st c t)) ∧
    (∀ recs : List (String × DateTime), Inv (processAll initState recs)) ∧
    (∀ (y : Nat) (recs : List (String × DateTime)),
      Inv (analyzeAll y initState recs)) :=
  ⟨inv_processCommand,
   fun recs => inv_processAll recs initState inv_initState,
   fun y recs => inv_analyzeAll y recs initState inv_initState⟩

/-- Witness for C4 at a concrete record. -/
theorem C4_totals_and_keys_invariant_witness :
    Inv (processCommand initState "git status" ⟨2023, 5, 1, 9, 0, 0, 0⟩) :=
  C4_totals_and_keys_invariant.1 initState "git status" _ inv_initState

/-- C5: a record whose year differs from the target leaves the state
unchanged, and the aggregation loop over any stream equals the fold of
`_process_command` over exactly the records whose year matches — so
every bucket reflects only matching records. -/
theorem C5_year_filtering :
    (∀ (y : Nat) (st : AggState) (r : String × DateTime),
      r.2.year ≠ y → analyzeStep y st r = st) ∧
    (∀ (y : Nat) (st : AggState) (recs : List (String × DateTime)),
      analyzeAll y st recs =
        processAll st (recs.filter (fun r => r.2.year == y))) := by
  constructor
  · intro y st r h
    simp [analyzeStep, h]
  · intro y st recs
    induction recs generalizing st with
    | nil => rfl
    | cons r rs ih =>
      by_cases h : r.2.year = y
      · have hb : (r.2.year == y) = true := by simp [h]
        simp only [analyzeAll, List.foldl_cons, List.filter_cons, hb, if_true,
          processAll] at ih ⊢
        rw [show analyzeStep y st r = processCommand st r.1 r.2 by
          simp [analyzeStep, h]]
        exact ih _
      · have hb : (r.2.year == y) = false := by simp [h]
        simp only [analyzeAll, List.foldl_cons, List.filter_cons, hb,
          Bool.false_eq_true, if_false] at ih ⊢
        rw [show analyzeStep y st r = st by simp [analyzeStep, h]]
        exact ih _

/-- Witness for C5 at a concrete off-year record. -/
theorem C5_year_filtering_witness :
    analyzeStep 2023 initState ("ls", ⟨2022, 7, 4, 12, 0, 0, 0⟩) = initState :=
  C5_year_filtering.1 2023 initState _ (by decide)

/-- C7: the tokenizer is total (its result type is `List String`, not
`Except`): whitespace-only input tokenizes to `[]`, empty tokenization
makes `_process_command` return the state unchanged, and whenever
`shlex.split` raises, `_safe_split_command` returns the fallback
(strip-unterminated-quotes-then-whitespace-split) result instead of
propagating the error. -/
theorem C7_tokenizer_never_raises :
    (∀ c : String, (∀ ch ∈ c.toList, isShlexWs ch = true) → safeSplit c = []) ∧
    (∀ (st : AggState) (c : String) (t : DateTime),
      safeSplit c = [] → processCommand st c t = st) ∧
    (∀ (c : String) (e : String),
      shlexSplit c = .error e → safeSplit c = fallbackSplit c) := by
  refine ⟨?_, ?_, ?_⟩
  · intro c h
    unfold safeSplit shlexSplit
    rw [shlexGo_ws c.toList [] h]
  · intro st c t h
    rw [processCommand_eq, h]
  · intro c e h
    simp [safeSplit, h]

/-- Witness for C7: whitespace-only input, the skip behaviour, and an
unterminated-quote input taking the fallback. -/
theorem C7_tokenizer_never_raises_witness :
    safeSplit " \t " = [] ∧
    processCommand initState "   " ⟨2023, 1, 1, 0, 0, 0, 0⟩ = initState ∧
    safeSplit "echo \"unterminated" = fallbackSplit "echo \"unterminated" :=
  ⟨C7_tokenizer_never_raises.1 " \t " (by decide),
   C7_tokenizer_never_raises.2.1 initState "   " _
     (C7_tokenizer_never_raises.1 "   " (by decide)),
   C7_tokenizer_never_raises.2.2 "echo \"unterminated" "No closing quotation" rfl⟩

/-- C9: an unknown shell identifier or a missing history file makes
`parse_shell_history` raise `FileNotFoundError` naming the shell before
any record is parsed or any state is mutated; `main` installs no
handler, so the whole run raises the same error and no report value is
produced (the process exits non-zero). -/
theorem C9_missing_file_or_unknown_shell_is_fatal :
    ∀ (fs : String → Option (List String)) (now : DateTime)
      (argYear : Option Nat) (shell : String),
      (historyFiles shell = none ∨
        ∃ p, historyFiles shell = some p ∧ fs p = none) →
      parseShellHistory fs now shell =
        .error (.fileNotFound ("History file not found for " ++ shell)) ∧
      mainRun fs now argYear shell =
        .error (.fileNotFound ("History file not found for " ++ shell)) := by
  intro fs now argYear shell h
  have hp : parseShellHistory fs now shell =
      .error (.fileNotFound ("History file not found for " ++ shell)) := by
    rcases h with h | ⟨p, hsome, hnone⟩
    · simp [parseShellHistory, h]
    · simp [parseShellHistory, hsome, hnone]
  refine ⟨hp, ?_⟩
  unfold mainRun
  rw [hp]
  rfl

/-- Witness for C9: a filesystem with no files and shell `zsh`. -/
theorem C9_missing_file_or_unknown_shell_is_fatal_witness :
    mainRun (fun _ => none) ⟨2024, 1, 1, 0, 0, 0, 0⟩ none "zsh" =
      .error (.fileNotFound "History file not found for zsh") :=
  (C9_missing_file_or_unknown_shell_is_fatal (fun _ => none)
    ⟨2024, 1, 1, 0, 0, 0, 0⟩ none "zsh" (Or.inr ⟨zshHistoryPath, rfl, rfl⟩)).2

/-- C10: with an existing fish history file, `parse_shell_history`
passes the existence check and then `getattr(self,
'_parse_fish_history')` raises `AttributeError` (no such method), not
the `FileNotFoundError` used for the other failure cases. -/
theorem C10_fish_dispatch_raises_attribute_error :
    ∀ (fs : String → Option (List String)) (now : DateTime)
      (lines : List String), fs fishHistoryPath = some lines →
      parseShellHistory fs now "fish" =
        .error (.attributeError "_parse_fish_history") := by
  intro fs now lines h
  unfold parseShellHistory
  simp only [show historyFiles "fish" = some fishHistoryPath from rfl]
  rw [h]
  rfl

/-- Witness for C10: a filesystem where the fish history file exists. -/
theorem C10_fish_dispatch_raises_attribute_error_witness :
    parseShellHistory (fun _ => some []) ⟨2024, 1, 1, 0, 0, 0, 0⟩ "fish" =
      .error (.attributeError "_parse_fish_history") :=
  C10_fish_dispatch_raises_attribute_error (fun _ => some []) _ [] rfl

theorem parseZsh_ok_of_lines_ok (lines : List String)
    (h : ∀ l ∈ lines, lineOkZsh l = true) :
    ∃ rs, parseZsh lines = .ok rs := by
  induction lines with
  | nil => exact ⟨[], rfl⟩
  | cons l rest ih =>
    have hl := h l (by simp)
    obtain ⟨rs, hrs⟩ := ih (fun x hx => h x (by simp [hx]))
    unfold lineOkZsh at hl
    cases hpl : parseZshLine l with
    | error e => rw [hpl] at hl; simp at hl
    | ok o =>
      cases o with
      | none => exact ⟨rs, by simp [parseZsh, hpl, hrs]⟩
      | some r => exact ⟨r :: rs, by simp [parseZsh, hpl, hrs]⟩

/-- C2 (amended): no command text can abort the run — if every line of a
zsh history file has a parseable timestamp field (or is skipped), the
whole parse-and-aggregate pipeline completes, whatever the command
contents (including unterminated quotes); the record loop itself is a
total function of the parsed records.  The original claim fails because
a malformed timestamp raises inside the parser, outside the `try` of
`_process_command` (see the counterexample theorem). -/
theorem C2_command_content_never_aborts :
    ∀ (y : Nat) (lines : List String),
      (∀ l ∈ lines, lineOkZsh l = true) → isOkB (runZsh y lines) = true := by
  intro y lines h
  obtain ⟨rs, hrs⟩ := parseZsh_ok_of_lines_ok lines h
  simp [runZsh, hrs, isOkB, Except.map]

/-- Witness for C2 at a zsh file whose command text contains an
unterminated quote (and a line without a leading colon). -/
theorem C2_command_content_never_aborts_witness :
    isOkB (runZsh 1970 [":0:0;123;echo \"unterminated", "plain line"]) = true :=
  C2_command_content_never_aborts 1970 _ (by decide)

/-- C2 (counterexample): a single zsh history line whose second
`;`-field is not numeric makes `int(parts[1])` raise `ValueError` inside
the `_parse_zsh_history` generator; the exception propagates through the
record loop of `analyze_commands` and aborts the whole run (both for the
parse-and-aggregate pipeline and for `main`), instead of being caught
and reported as a per-record warning. -/
theorem C2_malformed_timestamp_aborts_run :
    runZsh 2023 [":1700:0;abc;def"] =
      .error (.valueError "invalid literal for int() with base 10: 'abc'") ∧
    mainRun (fun p => if p = zshHistoryPath then some [":1700:0;abc;def"] else none)
      ⟨2023, 6, 1, 0, 0, 0, 0⟩ (some 2023) "zsh" =
      .error (.valueError "invalid literal for int() with base 10: 'abc'") :=
  ⟨rfl, rfl⟩

theorem processCommand_fc (st : AggState) (c : String) (t : DateTime) :
    ((processCommand st c t).first_command,
      (processCommand st c t).first_command_time)
      = fcStep (st.first_command, st.first_command_time) (c, t) := by
  rw [processCommand_eq]
  cases h : safeSplit c with
  | nil => simp [fcStep, h]
  | cons base rest =>
    simp only [fcStep, h]
    split <;> simp_all

theorem processAll_fc (recs : List (String × DateTime)) :
    ∀ st : AggState,
      ((processAll st recs).first_command, (processAll st recs).first_command_time)
        = recs.foldl fcStep (st.first_command, st.first_command_time) := by
  induction recs with
  | nil => intro st; rfl
  | cons r rs ih =>
    intro st
    show ((processAll (processCommand st r.1 r.2) rs).first_command,
        (processAll (processCommand st r.1 r.2) rs).first_command_time) = _
    rw [ih, processCommand_fc]
    rfl

theorem fcFold_spec (recs : List (String × DateTime)) :
    ∀ p : Option String × DateTime,
      (recs.foldl fcStep p = p ∧
        ∀ r ∈ recs, safeSplit r.1 ≠ [] → p.2.key ≤ r.2.key) ∨
      (∃ r ∈ recs, safeSplit r.1 ≠ [] ∧
        recs.foldl fcStep p = (some r.1, r.2) ∧ r.2.key < p.2.key ∧
        ∀ r' ∈ recs, safeSplit r'.1 ≠ [] → r.2.key ≤ r'.2.key) := by
  induction recs with
  | nil => intro p; left; exact ⟨rfl, by simp⟩
  | cons r rs ih =>
    intro p
    by_cases hs : safeSplit r.1 = []
    · have hstep : fcStep p r = p := by simp [fcStep, hs]
      rcases ih p with ⟨heq, hbnd⟩ | ⟨r0, hmem, htok, heq, hlt, hbnd⟩
      · left
        refine ⟨?_, ?_⟩
        · show List.foldl fcStep (fcStep p r) rs = p
          rw [hstep]; exact heq
        · intro r' hm ht
          rcases List.mem_cons.mp hm with h | h
          · subst h; exact absurd hs ht
          · exact hbnd r' h ht
      · right
        refine ⟨r0, by simp [hmem], htok, ?_, hlt, ?_⟩
        · show List.foldl fcStep (fcStep p r) rs = _
          rw [hstep]; exact heq
        · intro r' hm ht
          rcases List.mem_cons.mp hm with h | h
          · subst h; exact absurd hs ht
          · exact hbnd r' h ht
    · by_cases hlt : r.2.key < p.2.key
      · have hstep : fcStep p r = (some r.1, r.2) := by simp [fcStep, hs, hlt]
        rcases ih (some r.1, r.2) with ⟨heq, hbnd⟩ | ⟨r0, hmem, htok, heq, hlt0, hbnd⟩
        · right
          refine ⟨r, by simp, hs, ?_, hlt, ?_⟩
          · show List.foldl fcStep (fcStep p r) rs = _
            rw [hstep]; exact heq
          · intro r' hm ht
            rcases List.mem_cons.mp hm with h | h
            · subst h; exact le_refl _
            · exact hbnd r' h ht
        · right
          refine ⟨r0, by simp [hmem], htok, ?_, lt_trans hlt0 hlt, ?_⟩
          · show List.foldl fcStep (fcStep p r) rs = _
            rw [hstep]; exact heq
          · intro r' hm ht
            rcases List.mem_cons.mp hm with h | h
            · subst h; exact le_of_lt hlt0
            · exact hbnd r' h ht
      · have hstep : fcStep p r = p := by simp [fcStep, hs, hlt]
        have hge : p.2.key ≤ r.2.key := not_lt.mp hlt
        rcases ih p with ⟨heq, hbnd⟩ | ⟨r0, hmem, htok, heq, hlt0, hbnd⟩
        · left
          refine ⟨?_, ?_⟩
          · show List.foldl fcStep (fcStep p r) rs = p
            rw [hstep]; exact heq
          · intro r' hm ht
            rcases List.mem_cons.mp hm with h | h
            · subst h; exact hge
            · exact hbnd r' h ht
        · right
          refine ⟨r0, by simp [hmem], htok, ?_, hlt0, ?_⟩
          · show List.foldl fcStep (fcStep p r) rs = _
            rw [hstep]; exact heq
          · intro r' hm ht
            rcases List.mem_cons.mp hm with h | h
            · subst h; exact le_trans (le_of_lt hlt0) hge
            · exact hbnd r' h ht

/-- C6: after processing a batch of records (each with a timestamp below
the `datetime.max` sentinel, as every parser-produced timestamp is),
`first_command` is `None` when every record tokenized to nothing, and
otherwise — when every record has non-empty tokenization and the batch
is non-empty — it holds the full command text of a record with the
minimum timestamp among the batch, regardless of stream order, together
with that timestamp in `first_command_time`. -/
theorem C6_first_command_is_min_timestamp :
    ∀ recs : List (String × DateTime),
      (∀ r ∈ recs, r.2.key < dtMax.key) →
      ((∀ r ∈ recs, safeSplit r.1 = []) →
        (processAll initState recs).first_command = none) ∧
      (recs ≠ [] → (∀ r ∈ recs, safeSplit r.1 ≠ []) →
        ∃ r ∈ recs, (processAll initState recs).first_command = some r.1 ∧
          (processAll initState recs).first_command_time = r.2 ∧
          ∀ r' ∈ recs, r.2.key ≤ r'.2.key) := by
  intro recs hmax
  have hfc := processAll_fc recs initState
  constructor
  · intro hall
    rcases fcFold_spec recs (none, dtMax) with ⟨heq, _⟩ | ⟨r0, hmem, htok, _⟩
    · have hpair : ((processAll initState recs).first_command,
          (processAll initState recs).first_command_time) = (none, dtMax) := by
        rw [hfc]; exact heq
      exact congrArg Prod.fst hpair
    · exact absurd (hall r0 hmem) htok
  · intro hne htoks
    rcases fcFold_spec recs (none, dtMax) with ⟨heq, hbnd⟩ |
      ⟨r0, hmem, htok, heq, hlt, hbnd⟩
    · obtain ⟨r0, hr0⟩ : ∃ r, r ∈ recs := by
        cases recs with
        | nil => exact absurd rfl hne
        | cons a l => exact ⟨a, by simp⟩
      exact absurd (hbnd r0 hr0 (htoks r0 hr0)) (not_le.mpr (hmax r0 hr0))
    · have hpair : ((processAll initState recs).first_command,
          (processAll initState recs).first_command_time) = (some r0.1, r0.2) := by
        rw [hfc]; exact heq
      exact ⟨r0, hmem, congrArg Prod.fst hpair, congrArg Prod.snd hpair,
        fun r' hm => hbnd r' hm (htoks r' hm)⟩

/-- Witness for C6: three admitted records in non-chronological stream
order; the earliest-timestamped one (second in the stream) ends up in
`first_command`. -/
theorem C6_first_command_is_min_timestamp_witness :
    (processAll initState c6Batch).first_command = some "a one" ∧
    (processAll initState c6Batch).first_command_time
      = ⟨2023, 1, 15, 8, 0, 0, 0⟩ := by
  obtain ⟨r, hmem, h1, h2, h3⟩ :=
    (C6_first_command_is_min_timestamp c6Batch (by decide)).2 (by decide) (by decide)
  have hb := h3 ("a one", ⟨2023, 1, 15, 8, 0, 0, 0⟩) (by decide)
  rcases (show r = ("b two", ⟨2023, 6, 20, 12, 0, 0, 0⟩) ∨
      r = ("a one", ⟨2023, 1, 15, 8, 0, 0, 0⟩) ∨
      r = ("c three", ⟨2023, 9, 1, 23, 30, 0, 0⟩) from by
    simpa [c6Batch] using hmem) with h | h | h <;> subst h
  · exact absurd hb (by decide)
  · exact ⟨h1, h2⟩
  · exact absurd hb (by decide)

theorem exceptBind_ok {α β : Type} (a : α) (f : α → Except PyErr β) :
    (Except.ok a >>= f) = f a := rfl

theorem exceptBind_error {α β : Type} (e : PyErr) (f : α → Except PyErr β) :
    ((Except.error e : Except PyErr α) >>= f) = Except.error e := rfl

theorem pyMaxFold_spec (xs : List (Nat × Nat)) :
    ∀ x : Nat × Nat,
      (xs.foldl (fun best y => if y.2 > best.2 then y else best) x = x ∧
        ∀ y ∈ xs, y.2 ≤ x.2) ∨
      (∃ l1 l2 m, xs = l1 ++ m :: l2 ∧
        xs.foldl (fun best y => if y.2 > best.2 then y else best) x = m ∧
        x.2 < m.2 ∧ (∀ y ∈ l1, y.2 < m.2) ∧ (∀ y ∈ l2, y.2 ≤ m.2)) := by
  induction xs with
  | nil => intro x; left; exact ⟨rfl, by simp⟩
  | cons y ys ih =>
    intro x
    by_cases h : y.2 > x.2
    · have hstep : (y :: ys).foldl (fun best z => if z.2 > best.2 then z else best) x
          = ys.foldl (fun best z => if z.2 > best.2 then z else best) y := by
        simp [h]
      rcases ih y with ⟨heq, hbnd⟩ | ⟨l1, l2, m, hsplit, heq, hlt, hl1, hl2⟩
      · right
        exact ⟨[], ys, y, by simp, by rw [hstep]; exact heq, h, by simp, hbnd⟩
      · right
        refine ⟨y :: l1, l2, m, by rw [hsplit]; simp, by rw [hstep]; exact heq,
          lt_trans h hlt, ?_, hl2⟩
        intro z hz
        rcases List.mem_cons.mp hz with hzy | hzl
        · subst hzy; exact hlt
        · exact hl1 z hzl
    · have hstep : (y :: ys).foldl (fun best z => if z.2 > best.2 then z else best) x
          = ys.foldl (fun best z => if z.2 > best.2 then z else best) x := by
        simp [h]
      have hy : y.2 ≤ x.2 := not_lt.mp h
      rcases ih x with ⟨heq, hbnd⟩ | ⟨l1, l2, m, hsplit, heq, hlt, hl1, hl2⟩
      · left
        refine ⟨by rw [hstep]; exact heq, ?_⟩
        intro z hz
        rcases List.mem_cons.mp hz with hzy | hzl
        · subst hzy; exact hy
        · exact hbnd z hzl
      · right
        refine ⟨y :: l1, l2, m, by rw [hsplit]; simp, by rw [hstep]; exact heq, hlt,
          ?_, hl2⟩
        intro z hz
        rcases List.mem_cons.mp hz with hzy | hzl
        · subst hzy; exact lt_of_le_of_lt hy hlt
        · exact hl1 z hzl

theorem pyMaxPairs_firstMax (l : List (Nat × Nat)) (m : Nat × Nat)
    (h : pyMaxPairs l = .ok m) : FirstMax l m := by
  cases l with
  | nil => simp [pyMaxPairs] at h
  | cons x xs =>
    have hm : xs.foldl (fun best y => if y.2 > best.2 then y else best) x = m := by
      simpa [pyMaxPairs] using h
    rcases pyMaxFold_spec xs x with ⟨heq, hbnd⟩ | ⟨l1, l2, m0, hsplit, heq, hlt, hl1, hl2⟩
    · rw [heq] at hm
      subst hm
      exact ⟨[], xs, rfl, by simp, hbnd⟩
    · rw [heq] at hm
      subst hm
      refine ⟨x :: l1, l2, by rw [hsplit]; simp, ?_, hl2⟩
      intro p hp
      rcases List.mem_cons.mp hp with hpx | hpl
      · subst hpx; exact hlt
      · exact hl1 p hpl

/-- C8 (amended): whenever `generate_report` completes, the reported
most-active weekday is a weekday-bucket item of maximum count, with ties
broken by earliest insertion into the bucket — i.e. by first occurrence
in the record stream, since the modelled dicts iterate in insertion
order — not by lowest weekday index; the same rule holds for the
most-active hour.  The original claim's lowest-index tie-break fails
(see the counterexample theorem, where counts are `{3: 5, 0: 5}` and the
report names weekday 3). -/
theorem C8_report_max_first_insertion_tie_break :
    ∀ (y : Nat) (st : AggState) (rep : Report),
      generateReport y st = .ok rep →
      (∃ c, FirstMax st.commands_by_weekday (rep.mostActiveWeekday, c)) ∧
      (∃ c, FirstMax st.commands_by_hour (rep.mostActiveHour, c)) := by
  intro y st rep h
  simp only [generateReport] at h
  cases h1 : List.mapM (fun p => listGet monthNames (p.1 - 1))
      ((sortDescBy (fun p => p.2.count) st.commands_by_month).take 3) with
  | error e => rw [h1, exceptBind_error] at h; exact absurd h (by simp)
  | ok mnames =>
    rw [h1, exceptBind_ok] at h
    cases h2 : List.mapM (fun p : Nat × MonthData => do
        let n ← listGet monthNames (p.1 - 1)
        pure (n, (sortDescBy (fun q : String × Nat => q.2) p.2.commands).take 3))
        ((sortDescBy (fun p => p.2.count) st.commands_by_month).take 3) with
    | error e => rw [h2, exceptBind_error] at h; exact absurd h (by simp)
    | ok tim =>
      rw [h2, exceptBind_ok] at h
      cases h3 : pyMaxPairs st.commands_by_weekday with
      | error e => rw [h3, exceptBind_error] at h; exact absurd h (by simp)
      | ok mw =>
        rw [h3, exceptBind_ok] at h
        cases h4 : listGet weekdayNames mw.1 with
        | error e => rw [h4, exceptBind_error] at h; exact absurd h (by simp)
        | ok wname =>
          rw [h4, exceptBind_ok] at h
          cases h5 : pyMaxPairs st.commands_by_hour with
          | error e => rw [h5, exceptBind_error] at h; exact absurd h (by simp)
          | ok mh =>
            rw [h5, exceptBind_ok] at h
            have hrep : rep =
                ⟨y, st.total_commands, st.unique_commands.length,
                  (sortDescBy (fun p => p.2) st.total_command_count).take 10,
                  (sortDescBy (fun p => p.2.count) st.commands_by_month).take 3,
                  mnames, tim, mw.1, wname, mh.1⟩ := by
              cases h; rfl
            subst hrep
            constructor
            · exact ⟨mw.2, by
                have hfm := pyMaxPairs_firstMax _ _ h3
                simpa using hfm⟩
            · exact ⟨mh.2, by
                have hfm := pyMaxPairs_firstMax _ _ h5
                simpa using hfm⟩

/-- Witness for C8 at the ten-record batch with weekday counts
`{3: 5, 0: 5}` (weekday 3 first in the stream): the reported weekday is
the first-inserted maximal one, 3, and the reported hour 10. -/
theorem C8_report_max_first_insertion_tie_break_witness :
    (∃ c, FirstMax c8State.commands_by_weekday (3, c)) ∧
    (∃ c, FirstMax c8State.commands_by_hour (10, c)) :=
  C8_report_max_first_insertion_tie_break 2023 c8State c8Rep (by rfl)

/-- C8 (counterexample): with weekday counts `{0: 5, 3: 5}` where
weekday 3 (Thursday 2023-01-05) occurs first in the stream, the report
names weekday 3, not the lowest index 0 claimed by the spec's tie-break
rule. -/
theorem C8_tie_break_counterexample :
    reportedWeekday (generateReport 2023 c8State) = some 3 ∧ (3 : Nat) ≠ 0 :=
  ⟨rfl, by decide⟩

end CliWrapped
